import Mathlib

/-!
Verification of the streaming tool-calling agent loop of
`src/examples/08_agents/local_agent.py`.

The Python source is shallowly embedded:

* A streamed response chunk's `delta` becomes the structure `Delta`
  (chunks without choices or with an empty delta contribute nothing and are
  represented by a `Delta` with all fields absent).
* Python dicts used as messages become the structure `Message` whose fields
  are `Option`s recording key presence; an assistant message's `content` key
  can be absent, present with value `None`, or present with a string, so it
  is an `Option (Option String)`.
* The mutable `messages` list (mutated in place by `append`) becomes explicit
  state passing: each operation returns the new list; a Python exception that
  propagates is modelled by `Except`, and since an in-place mutated list keeps
  its appended entries when an exception unwinds, operations return
  `List Message × Except PyExc _` (the state survives the error).
* External library calls that are not part of this repository are parameters:
  `jl` models `json.loads` (returning the decode-error message on failure),
  `FM` models the tool registry `FUNCTION_MAP` (a tool may raise, modelled by
  `Except.error`), `parse` models `ast.parse(·, mode="eval")`, and `MathImpl`
  models the `math` library functions used by `SAFE_FUNCTIONS`.
* Python numbers are modelled by `ℚ` (Python floats are rationals; the
  int/float distinction is irrelevant to the verified claims).
-/

/-- Python exception classes that the embedded code can raise or catch. -/
inductive PyExc where
  | zeroDivisionError
  | valueError (msg : String)
  | typeError (msg : String)
  | attributeError (msg : String)
  | keyError (msg : String)
  | indexError (msg : String)
  deriving Repr, DecidableEq

/-- `str(e)` for a caught exception (used by `except Exception as e` handlers). -/
def PyExc.toStr : PyExc → String
  | .zeroDivisionError => "division by zero"
  | .valueError m => m
  | .typeError m => m
  | .attributeError m => m
  | .keyError m => m
  | .indexError m => m

/-- JSON values, as produced by `json.loads` and consumed by `json.dumps`. -/
inductive Json where
  | null
  | bool (b : Bool)
  | num (q : ℚ)
  | str (s : String)
  | arr (elems : List Json)
  | obj (fields : List (String × Json))
  deriving Repr

/-- Escape one character for a JSON string literal. -/
def escapeJsonChar (c : Char) : String :=
  if c = '"' then "\\\""
  else if c = '\\' then "\\\\"
  else if c = '\n' then "\\n"
  else if c = '\t' then "\\t"
  else if c = '\r' then "\\r"
  else String.singleton c

/-- Escape a string for a JSON string literal. -/
def escapeJson (s : String) : String :=
  String.join (s.toList.map escapeJsonChar)

mutual
/-- `json.dumps` with default separators.  Integral numbers render exactly as
Python ints do; non-integral numbers (reachable only through abstract tool
results, never through the verified claims) render as `num/den`. -/
def dumps : Json → String
  | .null => "null"
  | .bool true => "true"
  | .bool false => "false"
  | .num q => if q.den = 1 then toString q.num else toString q.num ++ "/" ++ toString q.den
  | .str s => "\"" ++ escapeJson s ++ "\""
  | .arr xs => "[" ++ dumpsList xs ++ "]"
  | .obj kvs => "\x7b" ++ dumpsObj kvs ++ "\x7d"

/-- Render the elements of a JSON array, separated by `", "`. -/
def dumpsList : List Json → String
  | [] => ""
  | [x] => dumps x
  | x :: y :: rest => dumps x ++ ", " ++ dumpsList (y :: rest)

/-- Render the fields of a JSON object, separated by `", "`. -/
def dumpsObj : List (String × Json) → String
  | [] => ""
  | [kv] => "\"" ++ escapeJson kv.1 ++ "\": " ++ dumps kv.2
  | kv :: kv2 :: rest =>
      "\"" ++ escapeJson kv.1 ++ "\": " ++ dumps kv.2 ++ ", " ++ dumpsObj (kv2 :: rest)
end

/-- Truthiness of `raw_args.strip()`: true iff the string has a
non-whitespace character. -/
def stripTruthy (s : String) : Bool :=
  s.toList.any (fun c => !c.isWhitespace)

/-- Substring membership on character lists (Python `pat in s` for
strings). -/
def charsContain (pat : List Char) : List Char → Bool
  | [] => pat.isEmpty
  | c :: rest => pat.isPrefixOf (c :: rest) || charsContain pat rest

/-- Python `"error" in result` where `result` is an arbitrary value: key
membership for dicts, element membership for lists, substring test for
strings, `TypeError` otherwise.  (The source evaluates this to pick a console
preview; the `TypeError` it can raise propagates like any other exception.) -/
def pyInError : Json → Except PyExc Bool
  | .obj kvs => .ok (kvs.any (fun kv => kv.1 = "error"))
  | .arr xs => .ok (xs.any (fun j => match j with | .str s => s = "error" | _ => false))
  | .str s => .ok (charsContain "error".toList s.toList)
  | _ => .error (.typeError "argument of type is not iterable")

/-- One tool-call delta inside a streamed chunk: `tc.index`, `tc.id`,
`tc.function.name`, `tc.function.arguments`. -/
structure ToolCallDelta where
  index : Nat
  id : Option String
  name : Option String
  arguments : Option String
  deriving Repr, DecidableEq

/-- One streamed chunk's delta; every field is optional on the wire. -/
structure Delta where
  reasoning_content : Option String
  content : Option String
  tool_calls : List ToolCallDelta
  deriving Repr, DecidableEq

/-- An in-progress tool invocation accumulated by index:
`{"id": tc.id, "function": {"name": ..., "arguments": ...}}`. -/
structure ToolCallAcc where
  id : Option String
  name : String
  arguments : String
  deriving Repr, DecidableEq

/-- A completed tool-call entry on an assistant message
(`{"id": ..., "type": "function", "function": {...}}`; the constant
`"type": "function"` field is omitted from the model). -/
structure ToolCallOut where
  id : Option String
  name : String
  arguments : String
  deriving Repr, DecidableEq

/-- A conversation message: a Python dict with a `role` key and optional
other keys.  `content` distinguishes the key being absent (`none`), present
with value `None` (`some none`), and present with a string
(`some (some s)`). -/
structure Message where
  role : String
  content : Option (Option String)
  reasoning_content : Option String
  tool_calls : Option (List ToolCallOut)
  tool_call_id : Option (Option String)
  deriving Repr, DecidableEq

/-- `{"role": "system", "content": s}` (same shape for user messages). -/
def Message.system (s : String) : Message :=
  ⟨"system", some (some s), none, none, none⟩

/-- `{"role": "user", "content": s}`. -/
def Message.user (s : String) : Message :=
  ⟨"user", some (some s), none, none, none⟩

/-- `{"role": "tool", "tool_call_id": id, "content": s}`. -/
def Message.toolMsg (id : Option String) (s : String) : Message :=
  ⟨"tool", some (some s), none, none, some id⟩

/-- `msg.get("content", "")`: the default `""` is returned only when the key
is absent; a stored `None` is returned as `none`. -/
def Message.getContentDefault (m : Message) : Option String :=
  match m.content with
  | none => some ""
  | some v => v

/-- The aggregation state of one streamed response: accumulated reasoning
text, accumulated answer text, and the insertion-ordered dict
`{index: tool call}` (modelled as an association list, which is how a Python
dict iterates). -/
structure AggState where
  reasoning : String
  content : String
  tool_calls : List (Nat × ToolCallAcc)
  deriving Repr, DecidableEq

/-- `idx in tool_calls` / `tool_calls[idx]`: first (unique) binding of a key. -/
def lookupIdx (acc : List (Nat × ToolCallAcc)) (i : Nat) : Option ToolCallAcc :=
  (acc.find? (fun p => p.1 = i)).map (fun p => p.2)

/-- Fold one tool-call delta into the accumulation dict: on first sight of an
index create the entry (capturing `tc.id` and `tc.function.name or ""`), on
a later sight append `tc.function.arguments or ""` to the stored arguments.
A new key is appended at the end (Python dict insertion order); an update
keeps the entry's position. -/
def stepToolCall (acc : List (Nat × ToolCallAcc)) (tc : ToolCallDelta) :
    List (Nat × ToolCallAcc) :=
  match lookupIdx acc tc.index with
  | none =>
      acc ++ [(tc.index, ⟨tc.id, tc.name.getD "", tc.arguments.getD ""⟩)]
  | some _ =>
      acc.map (fun p =>
        if p.1 = tc.index then
          (p.1, ⟨p.2.id, p.2.name, p.2.arguments ++ tc.arguments.getD ""⟩)
        else p)

/-- Fold one chunk delta into the aggregation state: concatenate the optional
reasoning slice, concatenate the optional content slice, and fold each
tool-call delta in order.  (The source guards each concatenation by
truthiness; appending the empty string is the same.) -/
def stepDelta (st : AggState) (d : Delta) : AggState :=
  { reasoning := st.reasoning ++ d.reasoning_content.getD ""
    content := st.content ++ d.content.getD ""
    tool_calls := d.tool_calls.foldl stepToolCall st.tool_calls }

/-- Drive the aggregator over the whole fragment sequence. -/
def aggregate (fragments : List Delta) : AggState :=
  fragments.foldl stepDelta ⟨"", "", []⟩

/-- Build the assistant message from the final aggregation state: `content`
is set when non-empty, `reasoning_content` when non-empty, `tool_calls` (in
dict-value order, i.e. first-arrival order) when non-empty; if tool calls
exist and no content was set, `content` is set to `None`. -/
def buildAssistantMsg (st : AggState) : Message :=
  { role := "assistant"
    content :=
      if st.content ≠ "" then some (some st.content)
      else if st.tool_calls ≠ [] then some none
      else none
    reasoning_content := if st.reasoning ≠ "" then some st.reasoning else none
    tool_calls :=
      if st.tool_calls ≠ [] then
        some (st.tool_calls.map (fun p => ⟨p.2.id, p.2.name, p.2.arguments⟩))
      else none
    tool_call_id := none }

example :
    aggregate [⟨some "th", some "", [⟨0, some "a", some "calc", some "\x7b"⟩]⟩,
               ⟨none, some "hi", [⟨0, none, none, some "\x7d"⟩]⟩] =
      ⟨"th", "hi", [(0, ⟨some "a", "calc", "\x7b\x7d"⟩)]⟩ := by decide

example :
    (aggregate [⟨none, none, [⟨2, some "c", some "f2", none⟩]⟩,
                ⟨none, none, [⟨0, some "a", some "f0", none⟩, ⟨1, some "b", some "f1", none⟩]⟩]).tool_calls.map
        (fun p => p.1) = [2, 0, 1] := by decide

/-- The tool registry `FUNCTION_MAP`: a tool takes the keyword-argument
mapping obtained from the parsed JSON object and either returns a result
value or raises (`Except.error`, covering both exceptions inside the tool
body and `TypeError` raised while binding `**func_args`). -/
def FuncMap : Type :=
  String → Option (List (String × Json) → Except PyExc Json)

/-- `json.loads`, a parameter of the embedding; `Except.error` carries the
`json.JSONDecodeError` message interpolated into the error payload. -/
def JsonLoads : Type :=
  String → Except String Json

/-- Dispatch the single tool call stored under `idx`
(the body of `for idx in sorted(tool_calls.keys())`):
parse the accumulated argument text (empty/whitespace-only text short-circuits
to the empty mapping), on a decode failure append an error tool message and
continue; otherwise read the parsed object's items (an `AttributeError` for
non-objects), invoke the registered tool or build an unknown-function error,
serialize the result, evaluate the `"error" in result` preview test, and
append the tool message. -/
def execOneCall (FM : FuncMap) (jl : JsonLoads) (acc : List (Nat × ToolCallAcc))
    (idx : Nat) (msgs : List Message) : List Message × Except PyExc Unit :=
  match lookupIdx acc idx with
  | none => (msgs, .error (.keyError (toString idx)))
  | some tc =>
    match (if stripTruthy tc.arguments then jl tc.arguments else Except.ok (Json.obj [])) with
    | .error e =>
        (msgs ++ [Message.toolMsg tc.id
          (dumps (Json.obj [("error", Json.str ("Invalid arguments JSON: " ++ e))]))],
         .ok ())
    | .ok v =>
      match v with
      | .obj kvs =>
        let result : Except PyExc Json :=
          match FM tc.name with
          | some f => f kvs
          | none => .ok (Json.obj [("error", Json.str ("Unknown function: " ++ tc.name))])
        match result with
        | .error e => (msgs, .error e)
        | .ok r =>
          let result_str := dumps r
          match pyInError r with
          | .error e => (msgs, .error e)
          | .ok _ => (msgs ++ [Message.toolMsg tc.id result_str], .ok ())
      | _ => (msgs, .error (.attributeError "object has no attribute items"))

/-- Run `execOneCall` over a list of indices, stopping at the first
uncaught exception (which propagates with the messages appended so far). -/
def execToolCallsAux (FM : FuncMap) (jl : JsonLoads) (acc : List (Nat × ToolCallAcc)) :
    List Nat → List Message → List Message × Except PyExc Unit
  | [], msgs => (msgs, .ok ())
  | idx :: rest, msgs =>
    match execOneCall FM jl acc idx msgs with
    | (msgs', .ok _) => execToolCallsAux FM jl acc rest msgs'
    | (msgs', .error e) => (msgs', .error e)

/-- `sorted(tool_calls.keys())`. -/
def sortedKeys (acc : List (Nat × ToolCallAcc)) : List Nat :=
  (acc.map (fun p => p.1)).insertionSort (· ≤ ·)

/-- One turn of `stream_agent_turn` given the streamed fragment sequence:
aggregate the stream, append the assistant message, and either return the
content as the final answer (no tool calls) or dispatch every tool call in
ascending index order and return `None` (the incomplete signal).  The
returned list is the in-place mutated `messages`; `Except.error` is an
uncaught exception (the mutated list survives it). -/
def stream_agent_turn (FM : FuncMap) (jl : JsonLoads) (fragments : List Delta)
    (messages : List Message) : List Message × Except PyExc (Option String) :=
  let st := aggregate fragments
  let messages := messages ++ [buildAssistantMsg st]
  if st.tool_calls = [] then
    (messages, .ok (some st.content))
  else
    match execToolCallsAux FM jl st.tool_calls (sortedKeys st.tool_calls) messages with
    | (msgs', .ok _) => (msgs', .ok none)
    | (msgs', .error e) => (msgs', .error e)

/-- The body of `agent_turn`'s `for i in range(max_iterations)` loop, with the
remaining iteration count explicit.  When the budget runs out the function
returns `messages[-1].get("content", "")` (an `IndexError` on an empty
transcript).  `turnFn i` is the behaviour of `stream_agent_turn` on round `i`
(each round consumes a fresh streamed response). -/
def agentLoop (turnFn : Nat → List Message → List Message × Except PyExc (Option String)) :
    Nat → Nat → List Message → List Message × Except PyExc (Option String)
  | _, 0, msgs =>
    match msgs.getLast? with
    | none => (msgs, .error (.indexError "list index out of range"))
    | some m => (msgs, .ok m.getContentDefault)
  | i, fuel + 1, msgs =>
    match turnFn i msgs with
    | (msgs', .error e) => (msgs', .error e)
    | (msgs', .ok (some r)) => (msgs', .ok (some r))
    | (msgs', .ok none) => agentLoop turnFn (i + 1) fuel msgs'

/-- `agent_turn(client, messages, show_thinking, max_iterations=10)`. -/
def agent_turn (turnFn : Nat → List Message → List Message × Except PyExc (Option String))
    (messages : List Message) (max_iterations : Nat := 10) :
    List Message × Except PyExc (Option String) :=
  agentLoop turnFn 0 max_iterations messages

/-- Number of rounds `agentLoop` actually executes (how many times the Turn
Controller runs) before returning. -/
def agentLoopRounds
    (turnFn : Nat → List Message → List Message × Except PyExc (Option String)) :
    Nat → Nat → List Message → Nat
  | _, 0, _ => 0
  | i, fuel + 1, msgs =>
    match turnFn i msgs with
    | (_, .error _) => 1
    | (_, .ok (some _)) => 1
    | (msgs', .ok none) => 1 + agentLoopRounds turnFn (i + 1) fuel msgs'

/-- The binary-operator node kinds of the host grammar (`ast.BinOp.op`). -/
inductive BinOpKind where
  | add | sub | mult | div | pow | mod
  | floorDiv | matMult | lshift | rshift | bitOr | bitXor | bitAnd
  deriving Repr, DecidableEq

/-- `type(node.op).__name__` for a binary operator node. -/
def BinOpKind.clsName : BinOpKind → String
  | .add => "Add" | .sub => "Sub" | .mult => "Mult" | .div => "Div"
  | .pow => "Pow" | .mod => "Mod" | .floorDiv => "FloorDiv" | .matMult => "MatMult"
  | .lshift => "LShift" | .rshift => "RShift"
  | .bitOr => "BitOr" | .bitXor => "BitXor" | .bitAnd => "BitAnd"

/-- Membership of the operator's type in `SAFE_OPERATORS` (binary part). -/
def BinOpKind.safe : BinOpKind → Bool
  | .add | .sub | .mult | .div | .pow | .mod => true
  | _ => false

/-- The unary-operator node kinds (`ast.UnaryOp.op`). -/
inductive UnaryOpKind where
  | usub | uadd | notOp | invert
  deriving Repr, DecidableEq

/-- `type(node.op).__name__` for a unary operator node. -/
def UnaryOpKind.clsName : UnaryOpKind → String
  | .usub => "USub" | .uadd => "UAdd" | .notOp => "Not" | .invert => "Invert"

/-- Membership of the operator's type in `SAFE_OPERATORS` (unary part:
`USub` and `UAdd` are present, `Not` and `Invert` are not). -/
def UnaryOpKind.safe : UnaryOpKind → Bool
  | .usub | .uadd => true
  | _ => false

/-- The syntax-tree node kinds `safe_eval_node` inspects.  `constantNum` is a
numeric `ast.Constant`; `constantOther` is a constant of any other value type
(carrying `type(node.value)` rendered as text); `callNamed`/`callOther`
distinguish whether `node.func` is an `ast.Name`; `other` is any node kind
outside the allow-list (carrying `type(node).__name__`). -/
inductive PyAst where
  | constantNum (v : ℚ)
  | constantOther (tyName : String)
  | name (id : String)
  | binOp (op : BinOpKind) (left : PyAst) (right : PyAst)
  | unaryOp (op : UnaryOpKind) (operand : PyAst)
  | callNamed (funcId : String) (args : List PyAst)
  | callOther (funcTyName : String) (args : List PyAst)
  | expression (body : PyAst)
  | other (tyName : String)
  deriving Repr

/-- The names in `SAFE_FUNCTIONS`. -/
def SAFE_FUNCTION_NAMES : List String :=
  ["sin", "cos", "tan", "asin", "acos", "atan", "sqrt", "log", "log10",
   "exp", "pow", "abs", "floor", "ceil", "round"]

/-- The behaviour of the host math library backing `SAFE_FUNCTIONS` and the
float constants `math.pi` / `math.e`: external code, therefore a parameter.
`fns` is consulted only for names in `SAFE_FUNCTION_NAMES` and may raise
(wrong arity `TypeError`, `math domain error`, ...); `rpow` is `a ** b` for a
non-integral exponent `b`. -/
structure MathImpl where
  piVal : ℚ
  eVal : ℚ
  fns : String → List ℚ → Except PyExc ℚ
  rpow : ℚ → ℚ → Except PyExc ℚ

/-- Python `a % b` on numbers (sign follows the divisor); `ZeroDivisionError`
on a zero divisor. -/
def pyMod (a b : ℚ) : Except PyExc ℚ :=
  if b = 0 then .error .zeroDivisionError else .ok (a - b * ⌊a / b⌋)

/-- Python `a ** b`: exact for an integral exponent (raising
`ZeroDivisionError` for `0` to a negative power), delegated to the abstract
math implementation otherwise. -/
def pyPow (impl : MathImpl) (a b : ℚ) : Except PyExc ℚ :=
  if b.den = 1 then
    if a = 0 ∧ b.num < 0 then .error .zeroDivisionError
    else if b.num < 0 then .ok ((a ^ b.num.natAbs)⁻¹)
    else .ok (a ^ b.num.natAbs)
  else impl.rpow a b

/-- `SAFE_OPERATORS[op_type](left, right)` for an operator already checked to
be in the allow-list. -/
def applyBinOp (impl : MathImpl) : BinOpKind → ℚ → ℚ → Except PyExc ℚ
  | .add, a, b => .ok (a + b)
  | .sub, a, b => .ok (a - b)
  | .mult, a, b => .ok (a * b)
  | .div, a, b => if b = 0 then .error .zeroDivisionError else .ok (a / b)
  | .pow, a, b => pyPow impl a b
  | .mod, a, b => pyMod a b
  | _, _, _ => .error (.typeError "operator not in SAFE_OPERATORS")

mutual
/-- `safe_eval_node`: recursively evaluate a syntax-tree node, raising
`ValueError` (modelled by `Except.error (.valueError _)`) for anything
outside the allow-lists, exactly as the source does. -/
def safe_eval_node (impl : MathImpl) : PyAst → Except PyExc ℚ
  | .constantNum v => .ok v
  | .constantOther tyName => .error (.valueError ("Unsupported constant type: " ++ tyName))
  | .name id =>
      if id = "pi" then .ok impl.piVal
      else if id = "e" then .ok impl.eVal
      else .error (.valueError ("Unknown variable: " ++ id))
  | .binOp op l r =>
      if op.safe then
        match safe_eval_node impl l with
        | .error e => .error e
        | .ok a =>
          match safe_eval_node impl r with
          | .error e => .error e
          | .ok b => applyBinOp impl op a b
      else .error (.valueError ("Unsupported operator: " ++ op.clsName))
  | .unaryOp op operand =>
      if op.safe then
        match safe_eval_node impl operand with
        | .error e => .error e
        | .ok a => .ok (if op = .usub then -a else a)
      else .error (.valueError ("Unsupported operator: " ++ op.clsName))
  | .callNamed funcId args =>
      if funcId ∈ SAFE_FUNCTION_NAMES then
        match evalArgs impl args with
        | .error e => .error e
        | .ok vals => impl.fns funcId vals
      else .error (.valueError ("Unsupported function: " ++ funcId))
  | .callOther funcTyName _ =>
      .error (.valueError ("Unsupported function: " ++ funcTyName))
  | .expression body => safe_eval_node impl body
  | .other tyName => .error (.valueError ("Unsupported expression type: " ++ tyName))

/-- `[safe_eval_node(arg) for arg in node.args]`: left-to-right, the first
exception propagates. -/
def evalArgs (impl : MathImpl) : List PyAst → Except PyExc (List ℚ)
  | [] => .ok []
  | a :: rest =>
    match safe_eval_node impl a with
    | .error e => .error e
    | .ok v =>
      match evalArgs impl rest with
      | .error e => .error e
      | .ok vs => .ok (v :: vs)
end

/-- `ast.parse(expression, mode="eval")`: the host parser, external code,
therefore a parameter; `Except.error` carries the `SyntaxError` text. -/
def AstParse : Type :=
  String → Except String PyAst

/-- `calculate(expression)`: parse, evaluate, and convert every failure into
an error payload — `SyntaxError` and `ZeroDivisionError` get their own
labels, any other exception is stringified. -/
def calculate (parse : AstParse) (impl : MathImpl) (expression : String) : Json :=
  match parse expression with
  | .error msg => Json.obj [("error", Json.str ("Invalid syntax: " ++ msg))]
  | .ok tree =>
    match safe_eval_node impl tree with
    | .ok v => Json.obj [("expression", Json.str expression), ("result", Json.num v)]
    | .error .zeroDivisionError => Json.obj [("error", Json.str "Division by zero")]
    | .error e => Json.obj [("error", Json.str e.toStr)]

/-! ## Lemmas about the streaming aggregator -/

theorem String.join_cons' (s : String) (l : List String) :
    String.join (s :: l) = s ++ String.join l := by
  simp [String.join_eq]
  cases s
  rfl

/-- The ordered argument-text contributions of a run of tool-call deltas. -/
def joinArgs (tcs : List ToolCallDelta) : String :=
  String.join (tcs.map (fun tc => tc.arguments.getD ""))

theorem joinArgs_nil : joinArgs [] = "" := rfl

theorem joinArgs_cons (tc : ToolCallDelta) (tcs : List ToolCallDelta) :
    joinArgs (tc :: tcs) = tc.arguments.getD "" ++ joinArgs tcs := by
  simp [joinArgs, String.join_cons']

/-- The keys of the accumulation dict, in insertion order. -/
def dictKeys (acc : List (Nat × ToolCallAcc)) : List Nat :=
  acc.map (fun p => p.1)

theorem lookupIdx_nil (i : Nat) : lookupIdx [] i = none := rfl

theorem lookupIdx_cons (p : Nat × ToolCallAcc) (acc : List (Nat × ToolCallAcc)) (i : Nat) :
    lookupIdx (p :: acc) i = if p.1 = i then some p.2 else lookupIdx acc i := by
  by_cases h : p.1 = i <;> simp [lookupIdx, List.find?_cons, h]

theorem lookupIdx_eq_none_iff (acc : List (Nat × ToolCallAcc)) (i : Nat) :
    lookupIdx acc i = none ↔ i ∉ dictKeys acc := by
  induction acc with
  | nil => simp [lookupIdx_nil, dictKeys]
  | cons p acc ih =>
    by_cases h : p.1 = i <;> simp [lookupIdx_cons, dictKeys, h, ih] <;> simp [dictKeys] at ih <;>
      tauto

theorem lookupIdx_append_single (acc : List (Nat × ToolCallAcc)) (q : Nat × ToolCallAcc)
    (i : Nat) :
    lookupIdx (acc ++ [q]) i =
      match lookupIdx acc i with
      | some c => some c
      | none => if q.1 = i then some q.2 else none := by
  induction acc with
  | nil => simp [lookupIdx_nil, lookupIdx_cons]
  | cons p acc ih =>
    by_cases h : p.1 = i <;> simp [lookupIdx_cons, h, ih]

theorem lookupIdx_map_update (acc : List (Nat × ToolCallAcc)) (tgt : Nat) (s : String)
    (i : Nat) :
    lookupIdx (acc.map (fun p =>
        if p.1 = tgt then (p.1, ⟨p.2.id, p.2.name, p.2.arguments ++ s⟩) else p)) i =
      if tgt = i then
        (lookupIdx acc i).map (fun c => ⟨c.id, c.name, c.arguments ++ s⟩)
      else lookupIdx acc i := by
  induction acc with
  | nil => simp [lookupIdx_nil]
  | cons p acc ih =>
    by_cases hpi : p.1 = i
    · by_cases ht : tgt = i
      · have hpt : p.1 = tgt := by rw [hpi, ht]
        simp [lookupIdx_cons, hpi, hpt, ht]
      · have hpt : ¬ p.1 = tgt := by rw [hpi]; intro hc; exact ht hc.symm
        have hit : ¬ i = tgt := fun hc => ht hc.symm
        simp [lookupIdx_cons, hpi, hpt, ht, hit]
    · by_cases hpt : p.1 = tgt
      · have hti : ¬ tgt = i := fun hc => hpi (hpt.trans hc)
        simp [lookupIdx_cons, hpi, hpt, ih, hti]
      · simp [lookupIdx_cons, hpi, hpt, ih]

/-- Effect of one tool-call delta on the dict, observed through lookup. -/
theorem lookupIdx_stepToolCall (acc : List (Nat × ToolCallAcc)) (tc : ToolCallDelta) (i : Nat) :
    lookupIdx (stepToolCall acc tc) i =
      if tc.index = i then
        match lookupIdx acc i with
        | none => some ⟨tc.id, tc.name.getD "", tc.arguments.getD ""⟩
        | some c => some ⟨c.id, c.name, c.arguments ++ tc.arguments.getD ""⟩
      else lookupIdx acc i := by
  unfold stepToolCall
  cases hmem : lookupIdx acc tc.index with
  | none =>
    rw [lookupIdx_append_single]
    by_cases h : tc.index = i
    · subst h; simp [hmem]
    · simp only [h, if_false]
      have hne : ¬ tc.index = i := h
      cases hli : lookupIdx acc i with
      | none => simp [hne]
      | some c => rfl
  | some c =>
    rw [lookupIdx_map_update]
    by_cases h : tc.index = i
    · subst h
      simp [hmem]
    · simp [h]

/-- Characterization of folding a whole run of tool-call deltas: the entry at
index `i` is created by the first delta with that index (capturing its id and
name) and accumulates the argument text of every delta with that index, in
arrival order. -/
theorem lookupIdx_foldl_stepToolCall (tcs : List ToolCallDelta)
    (acc : List (Nat × ToolCallAcc)) (i : Nat) :
    lookupIdx (tcs.foldl stepToolCall acc) i =
      match lookupIdx acc i, tcs.filter (fun tc => tc.index = i) with
      | none, [] => none
      | none, d :: ds => some ⟨d.id, d.name.getD "", joinArgs (d :: ds)⟩
      | some c, ds => some ⟨c.id, c.name, c.arguments ++ joinArgs ds⟩ := by
  induction tcs generalizing acc with
  | nil =>
    cases h : lookupIdx acc i <;> simp [h, joinArgs_nil]
  | cons tc rest ih =>
    rw [List.foldl_cons, ih]
    by_cases hidx : tc.index = i
    · rw [lookupIdx_stepToolCall]
      simp only [hidx, if_true, List.filter_cons, decide_eq_true_eq]
      cases h : lookupIdx acc i with
      | none =>
        simp only [hidx, if_true]
        cases hf : rest.filter (fun tc => tc.index = i) <;>
          simp [joinArgs_cons, joinArgs_nil, String.append_assoc]
      | some c =>
        simp [hidx, joinArgs_cons, String.append_assoc]
    · rw [lookupIdx_stepToolCall]
      simp [hidx]

theorem aggregate_foldl_reasoning (fs : List Delta) (st : AggState) :
    (fs.foldl stepDelta st).reasoning =
      st.reasoning ++ String.join (fs.filterMap Delta.reasoning_content) := by
  induction fs generalizing st with
  | nil => simp [String.join]
  | cons d rest ih =>
    rw [List.foldl_cons, ih]
    cases h : d.reasoning_content <;>
      simp [stepDelta, h, String.join_cons', String.append_assoc]

theorem aggregate_foldl_content (fs : List Delta) (st : AggState) :
    (fs.foldl stepDelta st).content =
      st.content ++ String.join (fs.filterMap Delta.content) := by
  induction fs generalizing st with
  | nil => simp [String.join]
  | cons d rest ih =>
    rw [List.foldl_cons, ih]
    cases h : d.content <;>
      simp [stepDelta, h, String.join_cons', String.append_assoc]

theorem aggregate_foldl_tool_calls (fs : List Delta) (st : AggState) :
    (fs.foldl stepDelta st).tool_calls =
      ((fs.map Delta.tool_calls).flatten).foldl stepToolCall st.tool_calls := by
  induction fs generalizing st with
  | nil => rfl
  | cons d rest ih =>
    rw [List.foldl_cons, ih]
    simp [stepDelta, List.foldl_append]

/-- C3: for every fragment sequence, the aggregator's final reasoning text is
the arrival-order concatenation of the reasoning slices, the final answer
text is the arrival-order concatenation of the answer slices, and the entry
accumulated for each tool-call index takes its identifier and name from the
first delta bearing that index while its argument text is the arrival-order
concatenation of the argument-text contributions of all deltas bearing that
index. -/
theorem C3_aggregator_concatenation (fragments : List Delta) :
    (aggregate fragments).reasoning =
        String.join (fragments.filterMap Delta.reasoning_content) ∧
    (aggregate fragments).content =
        String.join (fragments.filterMap Delta.content) ∧
    ∀ i : Nat,
      lookupIdx (aggregate fragments).tool_calls i =
        match ((fragments.map Delta.tool_calls).flatten).filter
            (fun tc => tc.index = i) with
        | [] => none
        | d :: ds => some ⟨d.id, d.name.getD "", joinArgs (d :: ds)⟩ := by
  refine ⟨?_, ?_, ?_⟩
  · have := aggregate_foldl_reasoning fragments ⟨"", "", []⟩
    simpa [aggregate] using this
  · have := aggregate_foldl_content fragments ⟨"", "", []⟩
    simpa [aggregate] using this
  · intro i
    have h1 : (aggregate fragments).tool_calls =
        ((fragments.map Delta.tool_calls).flatten).foldl stepToolCall [] := by
      simpa [aggregate] using aggregate_foldl_tool_calls fragments ⟨"", "", []⟩
    rw [h1, lookupIdx_foldl_stepToolCall]
    cases hf : ((fragments.map Delta.tool_calls).flatten).filter (fun tc => tc.index = i) <;>
      simp [lookupIdx_nil]

/-- The indices of a run of tool-call deltas in order of first arrival,
appended after the already-seen keys `seen`. -/
def arrivalOrder : List ToolCallDelta → List Nat → List Nat
  | [], seen => seen
  | tc :: rest, seen =>
      arrivalOrder rest (if tc.index ∈ seen then seen else seen ++ [tc.index])

theorem dictKeys_stepToolCall (acc : List (Nat × ToolCallAcc)) (tc : ToolCallDelta) :
    dictKeys (stepToolCall acc tc) =
      if tc.index ∈ dictKeys acc then dictKeys acc else dictKeys acc ++ [tc.index] := by
  unfold stepToolCall
  cases h : lookupIdx acc tc.index with
  | none =>
    have hmem : tc.index ∉ dictKeys acc := (lookupIdx_eq_none_iff acc tc.index).mp h
    simp only [dictKeys] at hmem
    simp [dictKeys, hmem]
  | some c =>
    have hmem : tc.index ∈ dictKeys acc := by
      by_contra hc
      rw [← lookupIdx_eq_none_iff] at hc
      rw [h] at hc
      exact Option.noConfusion hc
    have hfst : (fun p : Nat × ToolCallAcc =>
        (if p.1 = tc.index then
          (p.1, (⟨p.2.id, p.2.name, p.2.arguments ++ tc.arguments.getD ""⟩ : ToolCallAcc))
        else p).1) = fun p : Nat × ToolCallAcc => p.1 := by
      funext p
      split <;> rfl
    simp only [dictKeys] at hmem
    simp [dictKeys, hmem, List.map_map, Function.comp_def, hfst]

theorem dictKeys_foldl_stepToolCall (tcs : List ToolCallDelta)
    (acc : List (Nat × ToolCallAcc)) :
    dictKeys (tcs.foldl stepToolCall acc) = arrivalOrder tcs (dictKeys acc) := by
  induction tcs generalizing acc with
  | nil => rfl
  | cons tc rest ih =>
    rw [List.foldl_cons, ih, arrivalOrder]
    by_cases h : tc.index ∈ dictKeys acc <;>
      simp [dictKeys_stepToolCall, h]

/-- A fragment sequence whose tool-call indices first arrive in the order
`[2, 0, 1]`. -/
def fragsOutOfOrder : List Delta :=
  [⟨none, none, [⟨2, some "c", some "f2", some "x"⟩]⟩,
   ⟨none, none, [⟨0, some "a", some "f0", some "y"⟩, ⟨1, some "b", some "f1", some "z"⟩]⟩]

/-- C2 counterexample: when the tool-call indices first arrive in the order
`[2, 0, 1]`, the tool invocation list placed on the constructed assistant
message is in arrival order `[2, 0, 1]` (Python dict `.values()` order), not
in ascending index order `[0, 1, 2]` as the claim states. -/
theorem C2_counterexample :
    (buildAssistantMsg (aggregate fragsOutOfOrder)).tool_calls =
      some [⟨some "c", "f2", "x"⟩, ⟨some "a", "f0", "y"⟩, ⟨some "b", "f1", "z"⟩] ∧
    (buildAssistantMsg (aggregate fragsOutOfOrder)).tool_calls ≠
      some [⟨some "a", "f0", "y"⟩, ⟨some "b", "f1", "z"⟩, ⟨some "c", "f2", "x"⟩] := by
  constructor
  · decide
  · decide

/-- C2 amended: the tool invocation list placed on the assistant message
follows the first-arrival order of the indices (for first arrivals
`[2, 0, 1]` the final list is in that same order), while the dispatch
traversal `sorted(tool_calls.keys())` visits an ascending rearrangement of
exactly those indices. -/
theorem C2_amended_arrival_order_and_sorted_dispatch :
    (∀ fragments : List Delta,
      dictKeys (aggregate fragments).tool_calls =
        arrivalOrder ((fragments.map Delta.tool_calls).flatten) []) ∧
    (∀ fragments : List Delta,
      List.Sorted (· ≤ ·) (sortedKeys (aggregate fragments).tool_calls)) ∧
    (∀ fragments : List Delta,
      (sortedKeys (aggregate fragments).tool_calls).Perm
        (dictKeys (aggregate fragments).tool_calls)) ∧
    dictKeys (aggregate fragsOutOfOrder).tool_calls = [2, 0, 1] ∧
    sortedKeys (aggregate fragsOutOfOrder).tool_calls = [0, 1, 2] := by
  refine ⟨?_, ?_, ?_, by decide, by decide⟩
  · intro fragments
    have h1 : (aggregate fragments).tool_calls =
        ((fragments.map Delta.tool_calls).flatten).foldl stepToolCall [] := by
      simpa [aggregate] using aggregate_foldl_tool_calls fragments ⟨"", "", []⟩
    rw [h1]
    have := dictKeys_foldl_stepToolCall ((fragments.map Delta.tool_calls).flatten) []
    simpa [dictKeys] using this
  · intro fragments
    exact List.sorted_insertionSort (· ≤ ·) _
  · intro fragments
    exact List.perm_insertionSort (· ≤ ·) _

/-! ## C6: explicit `None` content marker on tool-call-only assistant messages -/

/-- C6: whenever the aggregated state holds at least one tool invocation, the
assistant message's `content` field is present with the explicit `None`
marker when no answer text was produced (not the empty string), and carries
the answer text verbatim when it is non-empty. -/
theorem C6_content_none_marker (fragments : List Delta)
    (h : (aggregate fragments).tool_calls ≠ []) :
    ((aggregate fragments).content = "" →
      (buildAssistantMsg (aggregate fragments)).content = some none) ∧
    ((aggregate fragments).content ≠ "" →
      (buildAssistantMsg (aggregate fragments)).content =
        some (some (aggregate fragments).content)) := by
  constructor <;> intro hc <;> simp [buildAssistantMsg, hc, h]

/-- A fragment sequence producing one tool invocation and no answer text. -/
def fragsToolNoContent : List Delta :=
  [⟨some "think", none, [⟨0, some "id0", some "get_datetime", none⟩]⟩]

theorem C6_witness :
    (aggregate fragsToolNoContent).tool_calls ≠ [] ∧
    (buildAssistantMsg (aggregate fragsToolNoContent)).content = some none :=
  ⟨by decide, (C6_content_none_marker fragsToolNoContent (by decide)).1 (by decide)⟩

/-! ## Dispatch of completed tool invocations -/

/-- A dispatch step raises no uncaught exception: the argument text either
fails to decode (handled), or decodes to an object whose tool is unknown
(handled) or returns a result on which the `"error" in result` preview test
is defined. -/
def dispatchOK (FM : FuncMap) (jl : JsonLoads) (tc : ToolCallAcc) : Bool :=
  match (if stripTruthy tc.arguments then jl tc.arguments else Except.ok (Json.obj [])) with
  | .error _ => true
  | .ok (Json.obj kvs) =>
    match FM tc.name with
    | none => true
    | some f =>
      match f kvs with
      | .error _ => false
      | .ok r => match pyInError r with | .ok _ => true | .error _ => false
  | .ok _ => false

/-- The tool message a non-raising dispatch appends (the two `toolMsg tc.id ""`
branches are unreachable when `dispatchOK` holds). -/
def dispatchMsg (FM : FuncMap) (jl : JsonLoads) (tc : ToolCallAcc) : Message :=
  match (if stripTruthy tc.arguments then jl tc.arguments else Except.ok (Json.obj [])) with
  | .error e =>
      Message.toolMsg tc.id
        (dumps (Json.obj [("error", Json.str ("Invalid arguments JSON: " ++ e))]))
  | .ok (Json.obj kvs) =>
    match FM tc.name with
    | none =>
        Message.toolMsg tc.id
          (dumps (Json.obj [("error", Json.str ("Unknown function: " ++ tc.name))]))
    | some f =>
      match f kvs with
      | .error _ => Message.toolMsg tc.id ""
      | .ok r => Message.toolMsg tc.id (dumps r)
  | .ok _ => Message.toolMsg tc.id ""

theorem dispatchMsg_role (FM : FuncMap) (jl : JsonLoads) (tc : ToolCallAcc) :
    (dispatchMsg FM jl tc).role = "tool" := by
  unfold dispatchMsg
  repeat' split
  all_goals rfl

theorem execOneCall_of_dispatchOK (FM : FuncMap) (jl : JsonLoads)
    (acc : List (Nat × ToolCallAcc)) (idx : Nat) (tc : ToolCallAcc) (msgs : List Message)
    (hl : lookupIdx acc idx = some tc) (hok : dispatchOK FM jl tc = true) :
    execOneCall FM jl acc idx msgs = (msgs ++ [dispatchMsg FM jl tc], .ok ()) := by
  unfold execOneCall dispatchMsg
  rw [hl]
  unfold dispatchOK at hok
  cases hargs : (if stripTruthy tc.arguments then jl tc.arguments else Except.ok (Json.obj [])) with
  | error e => simp [hargs]
  | ok v =>
    rw [hargs] at hok
    cases v with
    | obj kvs =>
      simp only [hargs]
      cases hf : FM tc.name with
      | none => simp [hf, pyInError]
      | some f =>
        cases hres : f kvs with
        | error e => simp [hf, hres] at hok
        | ok r =>
          cases hperr : pyInError r with
          | error e => simp [hf, hres, hperr] at hok
          | ok b => simp [hf, hres, hperr]
    | null => simp at hok
    | bool b => simp at hok
    | num q => simp at hok
    | str s => simp at hok
    | arr xs => simp at hok

/-- Default placeholder entry used only to totalize lookups in statements. -/
def emptyAcc : ToolCallAcc := ⟨none, "", ""⟩

theorem execToolCallsAux_of_dispatchOK (FM : FuncMap) (jl : JsonLoads)
    (acc : List (Nat × ToolCallAcc)) :
    ∀ (idxs : List Nat) (msgs : List Message),
      (∀ i ∈ idxs, ∃ tc, lookupIdx acc i = some tc ∧ dispatchOK FM jl tc = true) →
      execToolCallsAux FM jl acc idxs msgs =
        (msgs ++ idxs.map (fun i => dispatchMsg FM jl ((lookupIdx acc i).getD emptyAcc)),
         .ok ())
  | [], msgs, _ => by simp [execToolCallsAux]
  | idx :: rest, msgs, h => by
    obtain ⟨tc, hl, hok⟩ := h idx (by simp)
    rw [execToolCallsAux, execOneCall_of_dispatchOK FM jl acc idx tc msgs hl hok]
    show execToolCallsAux FM jl acc rest (msgs ++ [dispatchMsg FM jl tc]) = _
    rw [execToolCallsAux_of_dispatchOK FM jl acc rest _
      (fun i hi => h i (List.mem_cons_of_mem _ hi))]
    simp [hl, String.append_assoc]

theorem lookupIdx_mem (acc : List (Nat × ToolCallAcc)) (i : Nat) (tc : ToolCallAcc)
    (h : lookupIdx acc i = some tc) : (i, tc) ∈ acc := by
  unfold lookupIdx at h
  cases hq : acc.find? (fun p => p.1 = i) with
  | none => rw [hq] at h; simp at h
  | some q =>
    rw [hq] at h
    simp at h
    have hmem := List.mem_of_find?_eq_some hq
    have hkey : q.1 = i := by simpa using List.find?_some hq
    have : (i, tc) = q := by
      rw [← hkey, ← h]
    rw [this]
    exact hmem

/-! ## C1 / C4 / C5 / C10: the turn controller's dispatch behaviour -/

/-- A tool that always succeeds with a small result object. -/
def okTool : List (String × Json) → Except PyExc Json :=
  fun _ => .ok (Json.obj [("ok", Json.bool true)])

/-- A tool whose invocation raises. -/
def raisingTool : List (String × Json) → Except PyExc Json :=
  fun _ => .error (.typeError "boom")

/-- A registry in which every tool raises when invoked. -/
def FMraising : FuncMap := fun _ => some raisingTool

/-- A registry in which every tool succeeds. -/
def FMall : FuncMap := fun _ => some okTool

/-- A registry with one good tool and one raising tool. -/
def FMmixed : FuncMap :=
  fun name => if name = "good" then some okTool
    else some (fun _ => .error (.valueError "tool blew up"))

/-- A `json.loads` stub that is never consulted in the scenarios using it. -/
def jlUnused : JsonLoads := fun _ => .error "unused"

/-- A `json.loads` stub returning a JSON array (valid JSON, not an object). -/
def jlArr : JsonLoads := fun _ => .ok (Json.arr [])

/-- A fragment sequence with a single tool invocation whose argument text is
whitespace. -/
def fragsOneRaisingCall : List Delta :=
  [⟨none, none, [⟨0, some "call_1", some "run_command", some "  "⟩]⟩]

/-- C1 counterexample: a turn whose single completed tool invocation raises
when invoked ends with the failure propagating out of `stream_agent_turn`
(the result is the exception, not a structured error result, and no tool
message is appended), contradicting the claim that such failures are caught
at the tool boundary. -/
theorem C1_counterexample :
    stream_agent_turn FMraising jlUnused fragsOneRaisingCall [Message.system "s"] =
      ([Message.system "s",
        ⟨"assistant", some none, none, some [⟨some "call_1", "run_command", "  "⟩], none⟩],
       Except.error (.typeError "boom")) ∧
    (stream_agent_turn FMraising jlUnused fragsOneRaisingCall [Message.system "s"]).2 ≠
      Except.ok none := by
  refine ⟨rfl, ?_⟩
  intro h
  have : Except.error (ε := PyExc) (.typeError "boom") = Except.ok (some "x") → False := by
    intro hc
    exact Except.noConfusion hc
  rw [show (stream_agent_turn FMraising jlUnused fragsOneRaisingCall
      [Message.system "s"]).2 = Except.error (.typeError "boom") from rfl] at h
  exact Except.noConfusion h

/-- C1 amended: the Turn Controller does not catch failures raised by an
invoked tool; when the registered tool raises, the raised failure propagates
out of `stream_agent_turn` and no tool message is appended for the
invocation. -/
theorem C1_amended_tool_failure_propagates (FM : FuncMap) (jl : JsonLoads)
    (msgs : List Message) (name : String)
    (f : List (String × Json) → Except PyExc Json) (id : Option String) (e : PyExc)
    (hf : FM name = some f) (he : f [] = .error e) :
    stream_agent_turn FM jl [⟨none, none, [⟨0, id, some name, none⟩]⟩] msgs =
      (msgs ++ [buildAssistantMsg (aggregate [⟨none, none, [⟨0, id, some name, none⟩]⟩])],
       Except.error e) := by
  have hagg : aggregate [⟨none, none, [⟨0, id, some name, none⟩]⟩] =
      ⟨"", "", [(0, ⟨id, name, ""⟩)]⟩ := rfl
  simp only [stream_agent_turn, hagg]
  simp only [execToolCallsAux, execOneCall, sortedKeys]
  simp [lookupIdx, stripTruthy, hf, he]

theorem C1_witness :
    stream_agent_turn FMraising jlUnused [⟨none, none, [⟨0, some "w", some "t", none⟩]⟩] [] =
      ([buildAssistantMsg (aggregate [⟨none, none, [⟨0, some "w", some "t", none⟩]⟩])],
       Except.error (.typeError "boom")) := by
  have h := C1_amended_tool_failure_propagates FMraising jlUnused [] "t" raisingTool
    (some "w") (.typeError "boom") rfl rfl
  simpa using h

/-- A fragment sequence with two completed tool invocations, the second of
which is dispatched to a raising tool. -/
def fragsTwoCalls : List Delta :=
  [⟨none, none, [⟨0, some "a", some "good", none⟩, ⟨1, some "b", some "bad", none⟩]⟩]

/-- C4 counterexample: a turn with two tool invocations whose second
invocation raises does not return the incomplete signal (the exception
propagates instead) and appends only one tool message for two invocations. -/
theorem C4_counterexample :
    stream_agent_turn FMmixed jlUnused fragsTwoCalls [Message.system "p"] =
      ([Message.system "p",
        ⟨"assistant", some none, none,
          some [⟨some "a", "good", ""⟩, ⟨some "b", "bad", ""⟩], none⟩,
        Message.toolMsg (some "a") "\x7b\"ok\": true\x7d"],
       Except.error (.valueError "tool blew up")) ∧
    (stream_agent_turn FMmixed jlUnused fragsTwoCalls [Message.system "p"]).2 ≠
      Except.ok none := by
  refine ⟨rfl, ?_⟩
  intro h
  rw [show (stream_agent_turn FMmixed jlUnused fragsTwoCalls [Message.system "p"]).2 =
      Except.error (.valueError "tool blew up") from rfl] at h
  exact Except.noConfusion h

/-- C4 amended: a turn whose aggregated state holds at least one tool
invocation, and in which every dispatch step completes without an uncaught
exception, returns the incomplete signal `None`, appends exactly one
assistant message plus exactly one tool message per invocation, and
dispatches the invocations along the ascending sort of their indices, one at
a time. -/
theorem C4_amended_incomplete_and_message_counts (FM : FuncMap) (jl : JsonLoads)
    (fragments : List Delta) (msgs : List Message)
    (hne : (aggregate fragments).tool_calls ≠ [])
    (hok : ∀ p ∈ (aggregate fragments).tool_calls, dispatchOK FM jl p.2 = true) :
    stream_agent_turn FM jl fragments msgs =
      (msgs ++ [buildAssistantMsg (aggregate fragments)] ++
        (sortedKeys (aggregate fragments).tool_calls).map
          (fun i => dispatchMsg FM jl
            ((lookupIdx (aggregate fragments).tool_calls i).getD emptyAcc)),
       Except.ok none) ∧
    (sortedKeys (aggregate fragments).tool_calls).length =
      (aggregate fragments).tool_calls.length ∧
    List.Sorted (· ≤ ·) (sortedKeys (aggregate fragments).tool_calls) ∧
    ∀ m ∈ (sortedKeys (aggregate fragments).tool_calls).map
        (fun i => dispatchMsg FM jl
          ((lookupIdx (aggregate fragments).tool_calls i).getD emptyAcc)),
      m.role = "tool" := by
  have hpre : ∀ i ∈ sortedKeys (aggregate fragments).tool_calls,
      ∃ tc, lookupIdx (aggregate fragments).tool_calls i = some tc ∧
        dispatchOK FM jl tc = true := by
    intro i hi
    have hperm := List.perm_insertionSort (· ≤ ·)
      ((aggregate fragments).tool_calls.map (fun p => p.1))
    have hmem : i ∈ dictKeys (aggregate fragments).tool_calls := by
      have : i ∈ (aggregate fragments).tool_calls.map (fun p => p.1) :=
        hperm.mem_iff.mp (by simpa [sortedKeys] using hi)
      simpa [dictKeys] using this
    cases hl : lookupIdx (aggregate fragments).tool_calls i with
    | none =>
      exact absurd hmem ((lookupIdx_eq_none_iff _ _).mp hl)
    | some tc =>
      exact ⟨tc, rfl, hok (i, tc) (lookupIdx_mem _ _ _ hl)⟩
  have hexec := execToolCallsAux_of_dispatchOK FM jl (aggregate fragments).tool_calls
    (sortedKeys (aggregate fragments).tool_calls)
    (msgs ++ [buildAssistantMsg (aggregate fragments)]) hpre
  refine ⟨?_, ?_, List.sorted_insertionSort (· ≤ ·) _, ?_⟩
  · simp only [stream_agent_turn, hne, if_neg, ite_false]
    rw [hexec]
  · have := (List.perm_insertionSort (· ≤ ·)
      ((aggregate fragments).tool_calls.map (fun p => p.1))).length_eq
    simpa [sortedKeys] using this
  · intro m hm
    obtain ⟨i, _, hi⟩ := List.mem_map.mp hm
    rw [← hi]
    exact dispatchMsg_role FM jl _

/-- A fragment sequence with two tool invocations whose indices first arrive
out of order. -/
def fragsTwoOK : List Delta :=
  [⟨none, none, [⟨1, some "b", some "g2", none⟩, ⟨0, some "a", some "g1", none⟩]⟩]

theorem C4_witness :
    stream_agent_turn FMall jlUnused fragsTwoOK [Message.system "s"] =
      ([Message.system "s",
        ⟨"assistant", some none, none,
          some [⟨some "b", "g2", ""⟩, ⟨some "a", "g1", ""⟩], none⟩,
        Message.toolMsg (some "a") "\x7b\"ok\": true\x7d",
        Message.toolMsg (some "b") "\x7b\"ok\": true\x7d"],
       Except.ok none) := by
  have h := (C4_amended_incomplete_and_message_counts FMall jlUnused fragsTwoOK
    [Message.system "s"] (by decide) (by decide)).1
  rw [h]
  rfl

/-- A registry in which every name maps to the always-succeeding tool. -/
def FMgoodOnly : FuncMap := fun _ => some okTool

/-- A fragment sequence whose single invocation carries argument text that is
valid JSON but not an object. -/
def fragsArrArgs : List Delta :=
  [⟨none, none, [⟨0, some "c1", some "read_file", some "[1, 2]"⟩]⟩]

/-- C5 counterexample: argument text that parses as valid JSON but not as a
key/value payload (here, a JSON array) is not converted into an error tool
message — the turn dies with an uncaught `AttributeError` raised by
`func_args.items()`, no tool message is appended, and the remaining
processing is aborted. -/
theorem C5_counterexample :
    stream_agent_turn FMgoodOnly jlArr fragsArrArgs [Message.system "s"] =
      ([Message.system "s",
        ⟨"assistant", some none, none, some [⟨some "c1", "read_file", "[1, 2]"⟩], none⟩],
       Except.error (.attributeError "object has no attribute items")) ∧
    ∀ m ∈ (stream_agent_turn FMgoodOnly jlArr fragsArrArgs [Message.system "s"]).1,
      m.role ≠ "tool" := by
  refine ⟨rfl, ?_⟩
  decide

/-- C5 amended: when the accumulated argument text fails JSON decoding, the
Turn Controller does not invoke any tool (the outcome is the same for every
registry), appends a tool message whose payload is an error naming the
decode failure, and continues with the remaining invocations of the turn. -/
theorem C5_amended_decode_failure_handled (FM FM' : FuncMap) (jl : JsonLoads)
    (acc : List (Nat × ToolCallAcc)) (idx : Nat) (tc : ToolCallAcc)
    (msgs : List Message) (rest : List Nat) (e : String)
    (hl : lookupIdx acc idx = some tc)
    (hs : stripTruthy tc.arguments = true)
    (he : jl tc.arguments = .error e) :
    execOneCall FM jl acc idx msgs =
      (msgs ++ [Message.toolMsg tc.id
        (dumps (Json.obj [("error", Json.str ("Invalid arguments JSON: " ++ e))]))],
       Except.ok ()) ∧
    execToolCallsAux FM jl acc (idx :: rest) msgs =
      execToolCallsAux FM jl acc rest
        (msgs ++ [Message.toolMsg tc.id
          (dumps (Json.obj [("error", Json.str ("Invalid arguments JSON: " ++ e))]))]) ∧
    execOneCall FM jl acc idx msgs = execOneCall FM' jl acc idx msgs := by
  have h1 : execOneCall FM jl acc idx msgs =
      (msgs ++ [Message.toolMsg tc.id
        (dumps (Json.obj [("error", Json.str ("Invalid arguments JSON: " ++ e))]))],
       Except.ok ()) := by
    simp [execOneCall, hl, hs, he]
  have h1' : execOneCall FM' jl acc idx msgs =
      (msgs ++ [Message.toolMsg tc.id
        (dumps (Json.obj [("error", Json.str ("Invalid arguments JSON: " ++ e))]))],
       Except.ok ()) := by
    simp [execOneCall, hl, hs, he]
  refine ⟨h1, ?_, h1.trans h1'.symm⟩
  rw [execToolCallsAux, h1]

/-- A `json.loads` stub that always reports a decode failure. -/
def jlFail : JsonLoads := fun _ => .error "Expecting value"

theorem C5_witness :
    execOneCall FMgoodOnly jlFail [(0, ⟨some "x", "t", "oops"⟩)] 0 [] =
      ([Message.toolMsg (some "x")
        (dumps (Json.obj [("error", Json.str "Invalid arguments JSON: Expecting value")]))],
       Except.ok ()) := by
  have h := (C5_amended_decode_failure_handled FMgoodOnly FMraising jlFail
    [(0, ⟨some "x", "t", "oops"⟩)] 0 ⟨some "x", "t", "oops"⟩ [] [] "Expecting value"
    (by decide) (by decide) rfl).1
  simpa using h

/-- C10: a completed invocation whose accumulated argument text is empty or
whitespace-only is treated as the empty argument mapping: the JSON decoder is
never consulted (any two decoders give the same outcome, so no parse error
can be reported) and the registered tool is invoked with no arguments. -/
theorem C10_whitespace_args_empty_mapping (FM : FuncMap) (jl jl' : JsonLoads)
    (acc : List (Nat × ToolCallAcc)) (idx : Nat) (tc : ToolCallAcc) (msgs : List Message)
    (hl : lookupIdx acc idx = some tc)
    (hs : stripTruthy tc.arguments = false) :
    execOneCall FM jl acc idx msgs = execOneCall FM jl' acc idx msgs ∧
    ∀ f, FM tc.name = some f →
      execOneCall FM jl acc idx msgs =
        (match f [] with
         | .error e => (msgs, Except.error e)
         | .ok r =>
           match pyInError r with
           | .error e => (msgs, Except.error e)
           | .ok _ => (msgs ++ [Message.toolMsg tc.id (dumps r)], Except.ok ())) := by
  constructor
  · simp [execOneCall, hl, hs]
  · intro f hf
    simp [execOneCall, hl, hs, hf]

/-- A tool that reports whether it received any keyword arguments. -/
def arityTool : List (String × Json) → Except PyExc Json :=
  fun kvs => .ok (Json.str (if kvs.isEmpty then "no args" else "some args"))

/-- A registry in which every name maps to the arity-reporting tool. -/
def FMarity : FuncMap := fun _ => some arityTool

theorem C10_witness :
    execOneCall FMarity jlFail [(0, ⟨some "i", "e", "   "⟩)] 0 [] =
      ([Message.toolMsg (some "i") "\"no args\""], Except.ok ()) := by
  have h := (C10_whitespace_args_empty_mapping FMarity jlFail jlArr
    [(0, ⟨some "i", "e", "   "⟩)] 0 ⟨some "i", "e", "   "⟩ []
    (by decide) (by decide)).2 arityTool rfl
  rw [h]
  rfl

/-! ## C9: the transcript is append-only -/

theorem execOneCall_state_append (FM : FuncMap) (jl : JsonLoads)
    (acc : List (Nat × ToolCallAcc)) (idx : Nat) (msgs : List Message) :
    ∃ s, (execOneCall FM jl acc idx msgs).1 = msgs ++ s := by
  cases hl : lookupIdx acc idx with
  | none => exact ⟨[], by simp [execOneCall, hl]⟩
  | some tc =>
    cases hp : (if stripTruthy tc.arguments then jl tc.arguments
        else Except.ok (Json.obj [])) with
    | error e =>
      exact ⟨[Message.toolMsg tc.id
        (dumps (Json.obj [("error", Json.str ("Invalid arguments JSON: " ++ e))]))],
        by simp [execOneCall, hl, hp]⟩
    | ok v =>
      cases v with
      | obj kvs =>
        cases hr : (match FM tc.name with
          | some f => f kvs
          | none =>
              Except.ok (Json.obj [("error", Json.str ("Unknown function: " ++ tc.name))])) with
        | error e => exact ⟨[], by simp [execOneCall, hl, hp, hr]⟩
        | ok r =>
          cases hperr : pyInError r with
          | error e => exact ⟨[], by simp [execOneCall, hl, hp, hr, hperr]⟩
          | ok b =>
            exact ⟨[Message.toolMsg tc.id (dumps r)],
              by simp [execOneCall, hl, hp, hr, hperr]⟩
      | null => exact ⟨[], by simp [execOneCall, hl, hp]⟩
      | bool b => exact ⟨[], by simp [execOneCall, hl, hp]⟩
      | num q => exact ⟨[], by simp [execOneCall, hl, hp]⟩
      | str s => exact ⟨[], by simp [execOneCall, hl, hp]⟩
      | arr xs => exact ⟨[], by simp [execOneCall, hl, hp]⟩

theorem execToolCallsAux_state_append (FM : FuncMap) (jl : JsonLoads)
    (acc : List (Nat × ToolCallAcc)) :
    ∀ (idxs : List Nat) (msgs : List Message),
      ∃ s, (execToolCallsAux FM jl acc idxs msgs).1 = msgs ++ s
  | [], msgs => ⟨[], by simp [execToolCallsAux]⟩
  | idx :: rest, msgs => by
    obtain ⟨s1, hs1⟩ := execOneCall_state_append FM jl acc idx msgs
    cases hres : execOneCall FM jl acc idx msgs with
    | mk msgs' r =>
      rw [hres] at hs1
      simp at hs1
      cases r with
      | ok u =>
        obtain ⟨s2, hs2⟩ := execToolCallsAux_state_append FM jl acc rest msgs'
        refine ⟨s1 ++ s2, ?_⟩
        rw [execToolCallsAux, hres]
        simp only []
        rw [hs2, hs1, List.append_assoc]
      | error e =>
        refine ⟨s1, ?_⟩
        rw [execToolCallsAux, hres]
        exact hs1

theorem stream_agent_turn_state_append (FM : FuncMap) (jl : JsonLoads)
    (fragments : List Delta) (msgs : List Message) :
    ∃ s, (stream_agent_turn FM jl fragments msgs).1 = msgs ++ s := by
  unfold stream_agent_turn
  by_cases h : (aggregate fragments).tool_calls = []
  · exact ⟨[buildAssistantMsg (aggregate fragments)], by simp [h]⟩
  · simp only [h, if_neg, ite_false]
    obtain ⟨s, hs⟩ := execToolCallsAux_state_append FM jl (aggregate fragments).tool_calls
      (sortedKeys (aggregate fragments).tool_calls)
      (msgs ++ [buildAssistantMsg (aggregate fragments)])
    cases hres : execToolCallsAux FM jl (aggregate fragments).tool_calls
        (sortedKeys (aggregate fragments).tool_calls)
        (msgs ++ [buildAssistantMsg (aggregate fragments)]) with
    | mk msgs' r =>
      rw [hres] at hs
      simp at hs
      refine ⟨[buildAssistantMsg (aggregate fragments)] ++ s, ?_⟩
      cases r <;> simp [hs]

theorem agentLoop_state_append
    (turnFn : Nat → List Message → List Message × Except PyExc (Option String))
    (hturn : ∀ i m, ∃ s, (turnFn i m).1 = m ++ s) :
    ∀ (fuel i : Nat) (msgs : List Message),
      ∃ s, (agentLoop turnFn i fuel msgs).1 = msgs ++ s
  | 0, i, msgs => by
    unfold agentLoop
    cases msgs.getLast? <;> exact ⟨[], by simp⟩
  | fuel + 1, i, msgs => by
    obtain ⟨s1, hs1⟩ := hturn i msgs
    cases hres : turnFn i msgs with
    | mk msgs' r =>
      rw [hres] at hs1
      simp at hs1
      unfold agentLoop
      rw [hres]
      cases r with
      | error e => exact ⟨s1, hs1⟩
      | ok o =>
        cases o with
        | some a => exact ⟨s1, hs1⟩
        | none =>
          obtain ⟨s2, hs2⟩ := agentLoop_state_append turnFn hturn fuel (i + 1) msgs'
          exact ⟨s1 ++ s2, by rw [hs2, hs1, List.append_assoc]⟩

/-- C9: during one user turn the transcript only grows at its end: both the
Turn Controller and the Agent Loop leave every pre-existing entry (the
system-instructions entry included) unchanged and in place, whether the call
finishes normally or an exception unwinds out of it; any entry readable at a
position below the original length is exactly the original entry. -/
theorem C9_transcript_append_only :
    (∀ (FM : FuncMap) (jl : JsonLoads) (fragments : List Delta) (msgs : List Message),
      ∃ s, (stream_agent_turn FM jl fragments msgs).1 = msgs ++ s) ∧
    (∀ (FM : FuncMap) (jl : JsonLoads) (rounds : Nat → List Delta)
        (n : Nat) (msgs : List Message),
      ∃ s, (agent_turn (fun i m => stream_agent_turn FM jl (rounds i) m) msgs n).1 =
        msgs ++ s) ∧
    (∀ (FM : FuncMap) (jl : JsonLoads) (rounds : Nat → List Delta)
        (n : Nat) (msgs : List Message) (k : Nat), k < msgs.length →
      (agent_turn (fun i m => stream_agent_turn FM jl (rounds i) m) msgs n).1[k]? =
        msgs[k]?) := by
  have h2 : ∀ (FM : FuncMap) (jl : JsonLoads) (rounds : Nat → List Delta)
      (n : Nat) (msgs : List Message),
      ∃ s, (agent_turn (fun i m => stream_agent_turn FM jl (rounds i) m) msgs n).1 =
        msgs ++ s := by
    intro FM jl rounds n msgs
    exact agentLoop_state_append _
      (fun i m => stream_agent_turn_state_append FM jl (rounds i) m) n 0 msgs
  refine ⟨fun FM jl fragments msgs => stream_agent_turn_state_append FM jl fragments msgs,
    h2, ?_⟩
  intro FM jl rounds n msgs k hk
  obtain ⟨s, hs⟩ := h2 FM jl rounds n msgs
  rw [hs, List.getElem?_append, if_pos hk]

/-! ## C7: the agent loop's iteration budget -/

theorem agentLoopRounds_le
    (turnFn : Nat → List Message → List Message × Except PyExc (Option String)) :
    ∀ (n i : Nat) (msgs : List Message), agentLoopRounds turnFn i n msgs ≤ n
  | 0, _, _ => Nat.le_refl 0
  | n + 1, i, msgs => by
    unfold agentLoopRounds
    cases hres : turnFn i msgs with
    | mk msgs' r =>
      cases r with
      | error e =>
        show 1 ≤ n + 1
        omega
      | ok o =>
        cases o with
        | some a =>
          show 1 ≤ n + 1
          omega
        | none =>
          show 1 + agentLoopRounds turnFn (i + 1) n msgs' ≤ n + 1
          have := agentLoopRounds_le turnFn n (i + 1) msgs'
          omega

theorem agentLoop_incomplete_runs_out
    (turnFn : Nat → List Message → List Message × Except PyExc (Option String))
    (hturn : ∀ i m, ∃ s, turnFn i m = (m ++ s, Except.ok none)) :
    ∀ (n i : Nat) (msgs : List Message), msgs ≠ [] →
      agentLoopRounds turnFn i n msgs = n ∧
      ∃ final last, final.getLast? = some last ∧
        agentLoop turnFn i n msgs = (final, Except.ok last.getContentDefault)
  | 0, i, msgs, hne => by
    have hsome : msgs.getLast?.isSome := List.getLast?_isSome.mpr hne
    obtain ⟨last, hl⟩ := Option.isSome_iff_exists.mp hsome
    unfold agentLoopRounds agentLoop
    rw [hl]
    exact ⟨rfl, msgs, last, hl, rfl⟩
  | n + 1, i, msgs, hne => by
    obtain ⟨s, hs⟩ := hturn i msgs
    have hne' : msgs ++ s ≠ [] := fun hc => hne (List.append_eq_nil.mp hc).1
    obtain ⟨h1, final, last, hl, h2⟩ :=
      agentLoop_incomplete_runs_out turnFn hturn n (i + 1) (msgs ++ s) hne'
    unfold agentLoopRounds agentLoop
    rw [hs]
    refine ⟨?_, final, last, hl, ?_⟩
    · show 1 + agentLoopRounds turnFn (i + 1) n (msgs ++ s) = n + 1
      rw [h1]
      omega
    · show agentLoop turnFn (i + 1) n (msgs ++ s) = (final, Except.ok last.getContentDefault)
      exact h2

/-- C7: `agent_turn` runs the Turn Controller at most `max_iterations` times
(the parameter defaults to `10`); a round that produces a final answer stops
the loop immediately with that answer; and a Turn Controller that always
reports incomplete makes the loop run exactly `max_iterations` rounds and
then return the most recent transcript entry's content without raising. -/
theorem C7_iteration_budget :
    (∀ (turnFn : Nat → List Message → List Message × Except PyExc (Option String))
        (n i : Nat) (msgs : List Message), agentLoopRounds turnFn i n msgs ≤ n) ∧
    (∀ (turnFn : Nat → List Message → List Message × Except PyExc (Option String))
        (msgs msgs' : List Message) (a : String) (n : Nat),
      turnFn 0 msgs = (msgs', Except.ok (some a)) →
      agent_turn turnFn msgs (n + 1) = (msgs', Except.ok (some a)) ∧
      agentLoopRounds turnFn 0 (n + 1) msgs = 1) ∧
    (∀ (turnFn : Nat → List Message → List Message × Except PyExc (Option String))
        (n : Nat) (msgs : List Message),
      (∀ i m, ∃ s, turnFn i m = (m ++ s, Except.ok none)) → msgs ≠ [] →
      agentLoopRounds turnFn 0 n msgs = n ∧
      ∃ final last, final.getLast? = some last ∧
        agent_turn turnFn msgs n = (final, Except.ok last.getContentDefault)) ∧
    (∀ (turnFn : Nat → List Message → List Message × Except PyExc (Option String))
        (msgs : List Message),
      agent_turn turnFn msgs = agentLoop turnFn 0 10 msgs) := by
  refine ⟨fun turnFn n i msgs => agentLoopRounds_le turnFn n i msgs, ?_, ?_, ?_⟩
  · intro turnFn msgs msgs' a n h
    constructor
    · unfold agent_turn agentLoop
      rw [h]
    · unfold agentLoopRounds
      rw [h]
  · intro turnFn n msgs hturn hne
    exact agentLoop_incomplete_runs_out turnFn hturn n 0 msgs hne
  · intro turnFn msgs
    rfl

/-- A Turn Controller stub that always appends one tool message and reports
incomplete. -/
def turnStub : Nat → List Message → List Message × Except PyExc (Option String) :=
  fun _ m => (m ++ [Message.toolMsg none "stub"], Except.ok none)

theorem C7_witness :
    agentLoopRounds turnStub 0 3 [Message.system "s"] = 3 ∧
    agent_turn turnStub [Message.system "s"] 3 =
      ([Message.system "s", Message.toolMsg none "stub", Message.toolMsg none "stub",
        Message.toolMsg none "stub"], Except.ok (some "stub")) := by
  have h := C7_iteration_budget.2.2.1 turnStub 3 [Message.system "s"]
    (fun i m => ⟨[Message.toolMsg none "stub"], rfl⟩) (by simp)
  exact ⟨h.1, rfl⟩

/-! ## C8: the expression evaluator's error taxonomy -/

/-- Whether a JSON value is an object (a dict payload). -/
def Json.isObj : Json → Bool
  | .obj _ => true
  | _ => false

/-- The raise-free fragment of the evaluator's allow-list: numeric literals,
the constants `pi` and `e`, the binary operators `+ - *`, and the unary operators `USub`/`UAdd`
(division, modulo, power and function calls can raise even though they are
allow-listed, e.g. on a zero divisor). -/
def PureArith : PyAst → Bool
  | .constantNum _ => true
  | .name id => id = "pi" || id = "e"
  | .binOp op l r =>
      (op = BinOpKind.add || op = BinOpKind.sub || op = BinOpKind.mult) &&
        PureArith l && PureArith r
  | .unaryOp op e => (op = UnaryOpKind.usub || op = UnaryOpKind.uadd) && PureArith e
  | .expression body => PureArith body
  | _ => false

theorem pureArith_eval_ok (impl : MathImpl) :
    ∀ a : PyAst, PureArith a = true → ∃ v, safe_eval_node impl a = .ok v
  | .constantNum v, _ => ⟨v, rfl⟩
  | .name id, h => by
    rw [PureArith] at h
    rcases Bool.or_eq_true_iff.mp h with hpi | he
    · have : id = "pi" := by simpa using hpi
      exact ⟨impl.piVal, by simp [safe_eval_node, this]⟩
    · have : id = "e" := by simpa using he
      exact ⟨impl.eVal, by simp [safe_eval_node, this]⟩
  | .binOp op l r, h => by
    rw [PureArith] at h
    simp only [Bool.and_eq_true] at h
    obtain ⟨⟨hop, hl⟩, hr⟩ := h
    obtain ⟨vl, hvl⟩ := pureArith_eval_ok impl l hl
    obtain ⟨vr, hvr⟩ := pureArith_eval_ok impl r hr
    rcases Bool.or_eq_true_iff.mp hop with hop' | hmult
    · rcases Bool.or_eq_true_iff.mp hop' with hadd | hsub
      · have : op = BinOpKind.add := by simpa using hadd
        subst this
        exact ⟨vl + vr, by simp [safe_eval_node, hvl, hvr, BinOpKind.safe, applyBinOp]⟩
      · have : op = BinOpKind.sub := by simpa using hsub
        subst this
        exact ⟨vl - vr, by simp [safe_eval_node, hvl, hvr, BinOpKind.safe, applyBinOp]⟩
    · have : op = BinOpKind.mult := by simpa using hmult
      subst this
      exact ⟨vl * vr, by simp [safe_eval_node, hvl, hvr, BinOpKind.safe, applyBinOp]⟩
  | .unaryOp op e, h => by
    rw [PureArith] at h
    simp only [Bool.and_eq_true] at h
    obtain ⟨hop, he⟩ := h
    obtain ⟨v, hv⟩ := pureArith_eval_ok impl e he
    rcases Bool.or_eq_true_iff.mp hop with husub | huadd
    · have : op = UnaryOpKind.usub := by simpa using husub
      subst this
      exact ⟨-v, by simp [safe_eval_node, hv, UnaryOpKind.safe]⟩
    · have : op = UnaryOpKind.uadd := by simpa using huadd
      subst this
      exact ⟨v, by simp [safe_eval_node, hv, UnaryOpKind.safe]⟩
  | .expression body, h => by
    rw [PureArith] at h
    obtain ⟨v, hv⟩ := pureArith_eval_ok impl body h
    exact ⟨v, by simp [safe_eval_node, hv]⟩
  | .constantOther _, h => by simp [PureArith] at h
  | .callNamed _ _, h => by simp [PureArith] at h
  | .callOther _ _, h => by simp [PureArith] at h
  | .other _, h => by simp [PureArith] at h

/-- C8: `calculate` always returns a payload and never propagates a failure:
a syntax error from the parser yields the distinct `Invalid syntax` label; a
`ZeroDivisionError` during evaluation yields the distinct `Division by zero`
label (and `1/0` evaluates to exactly that error); unknown variables,
non-allow-listed operators, non-allow-listed or non-name call targets, and
any other node kind each yield their labelled `ValueError` payload; a
successful evaluation yields the success payload with the numeric result,
and the raise-free fragment of the allow-list always evaluates
successfully. -/
theorem C8_calculate_error_taxonomy :
    (∀ (parse : AstParse) (impl : MathImpl) (s : String),
      (calculate parse impl s).isObj = true) ∧
    (∀ (parse : AstParse) (impl : MathImpl) (s m : String),
      parse s = .error m →
      calculate parse impl s = Json.obj [("error", Json.str ("Invalid syntax: " ++ m))]) ∧
    (∀ (parse : AstParse) (impl : MathImpl) (s : String) (a : PyAst),
      parse s = .ok a → safe_eval_node impl a = .error .zeroDivisionError →
      calculate parse impl s = Json.obj [("error", Json.str "Division by zero")]) ∧
    (∀ impl : MathImpl,
      safe_eval_node impl (.binOp .div (.constantNum 1) (.constantNum 0)) =
        .error .zeroDivisionError) ∧
    (∀ (impl : MathImpl) (id : String), id ≠ "pi" → id ≠ "e" →
      safe_eval_node impl (.name id) = .error (.valueError ("Unknown variable: " ++ id))) ∧
    (∀ (impl : MathImpl) (op : BinOpKind) (l r : PyAst), op.safe = false →
      safe_eval_node impl (.binOp op l r) =
        .error (.valueError ("Unsupported operator: " ++ op.clsName))) ∧
    (∀ (impl : MathImpl) (fname : String) (args : List PyAst),
      fname ∉ SAFE_FUNCTION_NAMES →
      safe_eval_node impl (.callNamed fname args) =
        .error (.valueError ("Unsupported function: " ++ fname))) ∧
    (∀ (impl : MathImpl) (ty : String) (args : List PyAst),
      safe_eval_node impl (.callOther ty args) =
        .error (.valueError ("Unsupported function: " ++ ty))) ∧
    (∀ (impl : MathImpl) (ty : String),
      safe_eval_node impl (.other ty) =
        .error (.valueError ("Unsupported expression type: " ++ ty))) ∧
    (∀ (parse : AstParse) (impl : MathImpl) (s : String) (a : PyAst) (v : ℚ),
      parse s = .ok a → safe_eval_node impl a = .ok v →
      calculate parse impl s =
        Json.obj [("expression", Json.str s), ("result", Json.num v)]) ∧
    (∀ (parse : AstParse) (impl : MathImpl) (s : String) (a : PyAst) (m : String),
      parse s = .ok a → safe_eval_node impl a = .error (.valueError m) →
      calculate parse impl s = Json.obj [("error", Json.str m)]) ∧
    (∀ (impl : MathImpl) (a : PyAst), PureArith a = true →
      ∃ v, safe_eval_node impl a = .ok v) := by
  refine ⟨?_, ?_, ?_, ?_, ?_, ?_, ?_, ?_, ?_, ?_, ?_, ?_⟩
  · intro parse impl s
    cases hp : parse s with
    | error m => simp [calculate, hp, Json.isObj]
    | ok a =>
      cases he : safe_eval_node impl a with
      | ok v => simp [calculate, hp, he, Json.isObj]
      | error e =>
        cases e <;> simp [calculate, hp, he, Json.isObj]
  · intro parse impl s m h
    simp [calculate, h]
  · intro parse impl s a hp he
    simp [calculate, hp, he]
  · intro impl
    simp [safe_eval_node, BinOpKind.safe, applyBinOp]
  · intro impl id h1 h2
    simp [safe_eval_node, h1, h2]
  · intro impl op l r h
    simp [safe_eval_node, h]
  · intro impl fname args h
    simp [safe_eval_node, h]
  · intro impl ty args
    simp [safe_eval_node]
  · intro impl ty
    simp [safe_eval_node]
  · intro parse impl s a v hp he
    simp [calculate, hp, he]
  · intro parse impl s a m hp he
    simp [calculate, hp, he, PyExc.toStr]
  · exact pureArith_eval_ok

/-- A parser stub that recognizes exactly the expression `1/0`. -/
def parseDivZero : AstParse :=
  fun _ => .ok (PyAst.expression (.binOp .div (.constantNum 1) (.constantNum 0)))

/-- A math-library stub (its values are irrelevant purely to the error
taxonomy). -/
def implZero : MathImpl :=
  ⟨0, 0, fun _ _ => .ok 0, fun _ _ => .ok 0⟩

theorem C8_witness :
    calculate parseDivZero implZero "1/0" =
      Json.obj [("error", Json.str "Division by zero")] := by
  have hz := C8_calculate_error_taxonomy.2.2.2.1 implZero
  have hexpr : safe_eval_node implZero
      (PyAst.expression (.binOp .div (.constantNum 1) (.constantNum 0))) =
      .error .zeroDivisionError := by
    rw [safe_eval_node]
    exact hz
  exact C8_calculate_error_taxonomy.2.2.1 parseDivZero implZero "1/0" _ rfl hexpr

theorem C9_witness :
    (agent_turn (fun i m => stream_agent_turn FMall jlUnused
        ((fun _ => ([] : List Delta)) i) m) [Message.system "s"] 1).1[0]? =
      some (Message.system "s") := by
  have h := C9_transcript_append_only.2.2 FMall jlUnused (fun _ => ([] : List Delta)) 1
    [Message.system "s"] 0 (by simp)
  rw [h]
  rfl
